import Mathlib

/-!
# reddit-rss: the feed handler, the item renderer and the article batch function

A shallow embedding of `pkg/client/reddit.go` (`RssHandler`, `linkToFeed`, `dataKey`,
`articleLoader`) over the fields of `reddit.Link` (`pkg/reddit/link.go`) that the client reads.

Conventions of the embedding.

* Go strings are Lean `String`s; every string operation is written on the underlying
  character list, so that it evaluates inside the logic.
* `getArticle` is a function from the entry to the pair `(body, error)`; the `*http.Client`
  it also receives is not inspected by the client code and is left out.
* Every call of `getArticle` is recorded: functions that reach it return, next to their
  result, the list of entries it was called on, in call order.
* The goroutines of the batch function all finish before `wg.Wait()` returns; the order in
  which they finish is a parameter (`picks`), and every order is the order of some picks.
* `RssHandler` is given the outcome of fetching and decoding the listing; the upstream
  request itself, the response writer and `feed.ToRss` are outside the embedding.
* The code of the dataloader library is not in the repository. What the loader does around
  the batch function (one request per key string, batches of bounded size, one thunk per
  load) is modelled from the specification and marked as such.
* `os.Getenv("REDDIT_URL")` is the parameter `env` (the empty string when unset).
-/

namespace RedditRss

/-! ## Strings -/

/-- The Go function `strings.HasPrefix`. -/
def HasPrefix (s pre : String) : Bool :=
  pre.data.isPrefixOf s.data

/-- Replace the first occurrence of `old` by `new` in a character list. -/
def replaceFirst (old new : List Char) : List Char → List Char
  | [] => if old.isPrefixOf [] then new else []
  | c :: cs =>
    if old.isPrefixOf (c :: cs) then new ++ (c :: cs).drop old.length
    else c :: replaceFirst old new cs

/-- The Go call `strings.Replace(s, old, new, 1)`: only the first occurrence is replaced. -/
def Replace1 (s old new : String) : String :=
  ⟨replaceFirst old.data new.data s.data⟩

/-- The Go function `strings.ToLower`, as far as the handler observes it. The handler only
compares the result with the ASCII literals `"true"` and `"nsfw"`; the only non-ASCII runes
that Go lower-cases to an ASCII letter are U+0130 (to `i`) and U+212A (to `k`), neither of
which occurs in those literals, so lower-casing `A`–`Z` decides the same comparisons. -/
def ToLower (s : String) : String :=
  ⟨s.data.map Char.toLower⟩

/-- Value of a string of decimal digits, `none` when a character is not a digit
(the loop of `strconv.Atoi`, `n = n*10 + int(ch)`). -/
def digitsValue : List Char → Nat → Option Nat
  | [], n => some n
  | ch :: rest, n =>
    if ch.isDigit then digitsValue rest (n * 10 + (ch.toNat - '0'.toNat)) else none

/-- The Go function `strconv.Atoi` for a 64-bit `int`: an optional sign, at least one decimal
digit, nothing else, and a value in the range of `int`; `none` is the error return. -/
def Atoi (s : String) : Option Int :=
  let (neg, digits) :=
    match s.data with
    | '-' :: rest => (true, rest)
    | '+' :: rest => (false, rest)
    | cs => (false, cs)
  if digits.isEmpty then none
  else
    match digitsValue digits 0 with
    | none => none
    | some n =>
      let v : Int := if neg then -(n : Int) else (n : Int)
      if -(2 : Int) ^ 63 ≤ v ∧ v < (2 : Int) ^ 63 then some v else none

/-! ## Data -/

/-- The fields of `reddit.Link` that the client reads. `CreatedUtc` is held in whole
seconds, the value `int64(link.CreatedUtc)` that `linkToFeed` passes to `time.Unix`. -/
structure Link where
  Author : String
  BodyHTML : String
  CreatedUtc : Int
  ID : String
  LinkFlairText : String
  Over18 : Bool
  Permalink : String
  Score : Int
  Title : String
  URL : String
deriving DecidableEq

/-- The fields of `feeds.Item` that `linkToFeed` sets: `Link` is `Link.Href`, `Author` is
`Author.Name`, `Created` is in seconds since the epoch. -/
structure Item where
  Title : String
  Link : String
  Author : String
  Created : Int
  Id : String
  Content : String
deriving DecidableEq

/-- The envelope and items of `feeds.Feed` as `RssHandler` fills them. -/
structure Feed where
  Title : String
  Link : String
  Description : String
  AuthorName : String
  AuthorEmail : String
  Created : Int
  Updated : Int
  Items : List Item
deriving DecidableEq

/-- The type `dataloader.Result`: the data and the error of one key. -/
structure Result where
  Data : Item
  Error : Option String
deriving DecidableEq

/-- The type `GetArticleFn`: the body pointer (`none` for `nil`) and the error
(`none` for `nil`) returned for an entry. -/
abbrev GetArticleFn := Link → Option String × Option String

/-- The type `dataKey`: a `reddit.Link` under another name. -/
abbrev dataKey := Link

/-- The method `dataKey.String`: the key string of an entry is its id. -/
def dataKey.String (k : dataKey) : String :=
  k.ID

/-! ## linkToFeed -/

/-- The local `redditUrl` of `linkToFeed`: the environment value, or the default when it
is empty. -/
def redditUrl (env : String) : String :=
  if env = "" then "https://old.reddit.com" else env

/-- The function `linkToFeed`. Returns the item and the entries `getArticle` was called on. -/
def linkToFeed (env : String) (getArticle : GetArticleFn) (link : Link) : Item × List Link :=
  let redditUrl := redditUrl env
  let itemLink :=
    if HasPrefix link.URL "https://old.reddit.com" then
      Replace1 link.URL "https://old.reddit.com" redditUrl
    else link.URL
  let commentLink := redditUrl ++ link.Permalink
  let b := ""
  let (c, _) := getArticle link
  let b := match c with
    | some body => b ++ body
    | none => b
  let b := b ++ ("<p>submitted by <a href=\"" ++ redditUrl ++ "/user/" ++ link.Author ++
    "\">/u/" ++ link.Author ++ "</a><br>")
  let b :=
    if link.BodyHTML = "" ∧ itemLink ≠ commentLink then
      b ++ ("<span><a href=\"" ++ itemLink ++ "\">[link]</a></span>   ")
    else b
  let b := b ++ ("<span><a href=\"" ++ commentLink ++ "\">[comments]</a></span>")
  let b := b ++ "</p>"
  ({ Title := link.Title
     Link := itemLink
     Author := link.Author
     Created := link.CreatedUtc
     Id := link.ID
     Content := b }, [link])

/-! ## articleLoader -/

/-- The order in which the goroutines of one batch finish, out of the order in which they
were started: each pick takes one of the tasks still running (the pick modulo their
number); when the picks run out the remaining tasks finish in start order. -/
def completionOrder {α : Type} : List Nat → List α → List α
  | [], ts => ts
  | _ :: _, [] => []
  | p :: ps, t :: ts =>
    (t :: ts).get ⟨p % (ts.length + 1), Nat.mod_lt _ (Nat.succ_pos _)⟩ ::
      completionOrder ps ((t :: ts).eraseIdx (p % (ts.length + 1)))

/-- The map `resultMap` of the batch function after its goroutines have finished in the
given order: each one renders its entry and stores the result under the entry id, so a
later write under the same id replaces an earlier one. The head of the list is the latest
write; the second component collects the `getArticle` calls. -/
def runTasks (env : String) (getArticle : GetArticleFn) :
    List Link → List (String × Result) × List Link → List (String × Result) × List Link
  | [], st => st
  | l :: rest, (resultMap, calls) =>
    let (item, called) := linkToFeed env getArticle l
    runTasks env getArticle rest ((l.ID, { Data := item, Error := none }) :: resultMap,
      calls ++ called)

/-- The batch function that `articleLoader` hands to `dataloader.NewBatchedLoader`: one
goroutine per key, the join, then one map lookup per key, in key order (`none` is a nil
`*dataloader.Result`). Returns the results and the `getArticle` calls made. -/
def batchFn (env : String) (getArticle : GetArticleFn) (picks : List Nat)
    (keys : List dataKey) : List (Option Result) × List Link :=
  let (resultMap, calls) := runTasks env getArticle (completionOrder picks keys) ([], [])
  (keys.map fun key => resultMap.lookup key.ID, calls)

/-- A batched loader as `dataloader.NewBatchedLoader` receives it: the batch function (which
here also takes the finishing order of its goroutines) and the batch capacity. The
dataloader library is an external module whose code is not in this repository; what it
does with the batch function is modelled by `Loader.requests`, `Loader.passed`,
`Loader.run` and `Loader.LoadAll` below. -/
structure Loader where
  batchFn : List Nat → List dataKey → List (Option Result) × List Link
  batchCap : Nat

/-- The function `articleLoader`: the batch function above with
`dataloader.WithBatchCapacity(10)`. -/
def articleLoader (env : String) (getArticle : GetArticleFn) : Loader :=
  { batchFn := batchFn env getArticle, batchCap := 10 }

/-- Cut a key sequence into consecutive batches of `cap` keys (the last one may be shorter);
`fuel` bounds the number of batches. -/
def splitBatches {α : Type} (cap : Nat) : Nat → List α → List (List α)
  | 0, _ => []
  | _ + 1, [] => []
  | fuel + 1, x :: xs => (x :: xs).take cap :: splitBatches cap fuel ((x :: xs).drop cap)

/-- Modelled from the spec: the key bookkeeping of the dataloader library, which is not in
the source ("two keys are equal iff their underlying ids are equal", "the underlying fetch
executes at most once per unique key per call"). These are the keys for which `loader.Load`
makes a new request, in load order: a key whose key string (`dataKey.String`) was loaded
before, `seen`, gets the thunk made for it then and sends nothing to the batch function. -/
def Loader.requests : List dataKey → List String → List dataKey
  | [], _ => []
  | k :: ks, seen =>
    if dataKey.String k ∈ seen then Loader.requests ks seen
    else k :: Loader.requests ks (dataKey.String k :: seen)

/-- Modelled from the spec: the batching of the dataloader library, which is not in the
source ("bounds how many keys are coalesced into one physical batch before the fetch stage
runs; exceeding it starts a new batch"). The requests are cut, in order, into batches of at
most `batchCap` keys; capacity 0 means no bound. -/
def Loader.batches (l : Loader) (keys : List dataKey) : List (List dataKey) :=
  if l.batchCap = 0 then (if keys.isEmpty then [] else [keys])
  else splitBatches l.batchCap keys.length keys

/-- The key sequences that reach the batch function when `keys` are loaded one after the
other on a fresh loader: the batches of the new requests. -/
def Loader.passed (l : Loader) (keys : List dataKey) : List (List dataKey) :=
  l.batches (Loader.requests keys [])

/-- Run the batch function on every batch; `scheds` gives the finishing order of the
goroutines of the first, second, ... batch. -/
def Loader.run (l : Loader) : List (List Nat) → List (List dataKey) →
    List (Option Result) × List Link
  | _, [] => ([], [])
  | scheds, b :: bs =>
    let (rs, calls) := l.batchFn (scheds.headD []) b
    let (rest, calls2) := Loader.run l scheds.tail bs
    (rs ++ rest, calls ++ calls2)

/-- Modelled from the spec: the thunks of the dataloader library, which is not in the
source ("output length == input length and output[i] corresponds to input[i]", "duplicate
positions receive the same result"). What the thunks returned by successive `loader.Load`
calls on a fresh loader resolve to: the loader keeps, under each key string, the thunk of
its request, which yields the result at the request's position; the thunk handed out for a
key is the one kept under its key string (`none` is a nil result). The second component
collects the `getArticle` calls. -/
def Loader.LoadAll (l : Loader) (scheds : List (List Nat)) (keys : List dataKey) :
    List (Option Result) × List Link :=
  let requests := Loader.requests keys []
  let (rs, calls) := l.run scheds (l.batches requests)
  let cache := (requests.map dataKey.String).zip rs
  (keys.map fun k => (cache.lookup (dataKey.String k)).join, calls)

/-! ## RssHandler -/

/-- The query parameters `RssHandler` reads: for each name the first value of
`r.URL.Query()[name]`, `none` when the parameter is absent. -/
structure Query where
  limit : Option String
  safe : Option String
  flair : Option String
deriving DecidableEq

/-- The request as `RssHandler` reads it: `r.URL.String()` and the query parameters. -/
structure Request where
  URL : String
  Query : Query
deriving DecidableEq

/-- What `RssHandler` does with the response writer: a redirect, an error status, the feed
it hands to `feed.ToRss`, or a run-time panic. -/
inductive Response where
  | redirect (location : String) (code : Nat)
  | error (message : String) (code : Nat)
  | rss (feed : Feed)
  | panic
deriving DecidableEq

/-- The first loop of `RssHandler`: the entries that reach `loader.Load`, in listing
order. Each `if ... continue` of the source is one branch. -/
def RssHandler.loadLoop (scoreLimit : Bool) (limit : Int) (hasSafe safe hasFlair : Bool)
    (flair : String) : List Link → List dataKey
  | [] => []
  | link :: rest =>
    if hasSafe && safe && (link.Over18 || ToLower link.LinkFlairText == "nsfw") then
      RssHandler.loadLoop scoreLimit limit hasSafe safe hasFlair flair rest
    else if scoreLimit && decide (limit > link.Score) then
      RssHandler.loadLoop scoreLimit limit hasSafe safe hasFlair flair rest
    else if hasFlair && flair != "" && link.LinkFlairText != flair then
      RssHandler.loadLoop scoreLimit limit hasSafe safe hasFlair flair rest
    else
      link :: RssHandler.loadLoop scoreLimit limit hasSafe safe hasFlair flair rest

/-- The parameter parsing of `RssHandler` followed by its first loop: the keys passed to
`loader.Load` for a listing. When `limit` does not parse, `scoreLimit` is reset and the
value of `limit` is not used. -/
def RssHandler.keys (q : Query) (children : List Link) : List dataKey :=
  let (limit, scoreLimit) : Int × Bool :=
    match q.limit with
    | some limitStr =>
      match Atoi limitStr with
      | some v => (v, true)
      | none => (0, false)
    | none => (0, false)
  let (safe, hasSafe) : Bool × Bool :=
    match q.safe with
    | some safeStr => (ToLower safeStr == "true", true)
    | none => (false, false)
  let (flair, hasFlair) : String × Bool :=
    match q.flair with
    | some flairStr => (flairStr, true)
    | none => ("", false)
  RssHandler.loadLoop scoreLimit limit hasSafe safe hasFlair flair children

/-- The second loop of `RssHandler`: a thunk with an error is skipped, the data of every
other thunk is appended. A thunk over a nil result dereferences it, which is a panic
(`none`). -/
def RssHandler.collect : List (Option Result) → Option (List Item)
  | [] => some []
  | none :: _ => none
  | some r :: rest =>
    match r.Error with
    | some _ => RssHandler.collect rest
    | none => (RssHandler.collect rest).map fun items => r.Data :: items

/-- The feed envelope `RssHandler` creates before any item is added. -/
def RssHandler.newFeed (now : Int) (url : String) : Feed :=
  { Title := "reddit-rss " ++ url
    Link := "https://www.reddit.com/r/rss/comments/fvg3ed/i_built_a_better_rss_feed_for_reddit/"
    Description := "Reddit RSS feed that links directly to the content"
    AuthorName := "Stephen Solka"
    AuthorEmail := "stephen@solka.dev"
    Created := now
    Updated := now
    Items := [] }

/-- The function `RssHandler`. `now` is the value of the clock, `upstream` the outcome of
fetching and decoding the listing (the children of the listing, or the error message),
`scheds` the finishing orders of the goroutines of the successive batches. -/
def RssHandler (now : Int) (env : String) (getArticle : GetArticleFn)
    (scheds : List (List Nat)) (r : Request) (upstream : Except String (List Link)) :
    Response :=
  if r.URL = "/" then
    .redirect "https://www.reddit.com/r/rss/comments/fvg3ed/i_built_a_better_rss_feed_for_reddit/" 301
  else
    match upstream with
    | .error e => .error e 500
    | .ok children =>
      let feed := RssHandler.newFeed now r.URL
      let loader := articleLoader env getArticle
      let thunks := (loader.LoadAll scheds (RssHandler.keys r.Query children)).1
      match RssHandler.collect thunks with
      | none => .panic
      | some items => .rss { feed with Items := feed.Items ++ items }

/-! ## Vocabulary of the proofs -/

/-- The result the goroutine of entry `l` stores in `resultMap`. -/
def stored (env : String) (g : GetArticleFn) (l : Link) : Result :=
  { Data := (linkToFeed env g l).1, Error := none }

/-- A thunk result `r` resolves key `k` within the loaded keys `keys`: it is non-nil, has no
error, and holds the item rendered from an entry of `keys` that carries the id of `k`. -/
def Resolves (env : String) (g : GetArticleFn) (keys : List dataKey) (k : dataKey)
    (r : Option Result) : Prop :=
  ∃ k' ∈ keys, k'.ID = k.ID ∧ r = some (stored env g k')

/-- A feed item `it` renders key `k` within `keys`. -/
def Renders (env : String) (g : GetArticleFn) (keys : List dataKey) (k : dataKey)
    (it : Item) : Prop :=
  ∃ k' ∈ keys, k'.ID = k.ID ∧ it = (linkToFeed env g k').1

/-! ## Vocabulary of the statements -/

/-- The "submitted by" author link that opens the trailer block. -/
def submittedBy (base author : String) : String :=
  "<p>submitted by <a href=\"" ++ base ++ "/user/" ++ author ++ "\">/u/" ++ author ++
    "</a><br>"

/-- The "[link]" anchor of the trailer block. -/
def linkAnchor (href : String) : String :=
  "<span><a href=\"" ++ href ++ "\">[link]</a></span>   "

/-- The "[comments]" anchor of the trailer block. -/
def commentsAnchor (href : String) : String :=
  "<span><a href=\"" ++ href ++ "\">[comments]</a></span>"

/-! ## Sample data -/

/-- A link post with the given id, title, flair and score. -/
def sampleEntry (id title flair : String) (score : Int) : Link :=
  { Author := "alice"
    BodyHTML := ""
    CreatedUtc := 1600000000
    ID := id
    LinkFlairText := flair
    Over18 := false
    Permalink := "/r/rss/comments/" ++ id ++ "/"
    Score := score
    Title := title
    URL := "https://example.org/" ++ id }

/-- A self post: its URL is the internal base followed by its own permalink. -/
def selfPost : Link :=
  { sampleEntry "s1" "a self post" "" 7 with
    BodyHTML := "<div>text</div>"
    URL := "https://old.reddit.com/r/rss/comments/s1/" }

/-- A fetcher that fails, with no body, on the entry with id `B` and succeeds elsewhere. -/
def failsOnB : GetArticleFn := fun l =>
  if l.ID = "B" then (none, some "fetch failed") else (some "<article/>", none)

/-- The item ids of the feed in a response, `none` when the response is not a feed. -/
def Response.itemIds : Response → Option (List String)
  | .rss feed => some (feed.Items.map fun it => it.Id)
  | _ => none

set_option maxRecDepth 100000

/-! ## Lemmas: linkToFeed -/

theorem linkToFeed_calls (env : String) (g : GetArticleFn) (l : Link) :
    (linkToFeed env g l).2 = [l] := rfl

theorem linkToFeed_Id (env : String) (g : GetArticleFn) (l : Link) :
    (linkToFeed env g l).1.Id = l.ID := rfl

/-! ## Lemmas: the finishing order -/

theorem get_cons_eraseIdx_perm {α : Type} :
    ∀ (l : List α) (i : Nat) (h : i < l.length), (l.get ⟨i, h⟩ :: l.eraseIdx i).Perm l
  | [], _, h => absurd h (Nat.not_lt_zero _)
  | _ :: _, 0, _ => List.Perm.refl _
  | a :: l, i + 1, h => by
    have ih := get_cons_eraseIdx_perm l i (Nat.lt_of_succ_lt_succ h)
    exact (List.Perm.swap a _ _).trans (ih.cons a)

theorem completionOrder_perm {α : Type} :
    ∀ (picks : List Nat) (ts : List α), (completionOrder picks ts).Perm ts
  | [], ts => List.Perm.refl ts
  | _ :: _, [] => List.Perm.refl _
  | p :: ps, t :: ts => by
    unfold completionOrder
    have h : p % (ts.length + 1) < (t :: ts).length := Nat.mod_lt _ (Nat.succ_pos _)
    exact ((completionOrder_perm ps _).cons _).trans (get_cons_eraseIdx_perm (t :: ts) _ h)

/-- Every order of the tasks is the finishing order of some picks. -/
theorem completionOrder_complete {α : Type} :
    ∀ (order ts : List α), order.Perm ts → ∃ picks, completionOrder picks ts = order
  | [], ts, h => ⟨[], by simp [completionOrder, h.symm.eq_nil]⟩
  | x :: order, ts, h => by
    have hx : x ∈ ts := h.subset (List.mem_cons_self x order)
    obtain ⟨i, hi, hget⟩ := List.getElem_of_mem hx
    have hperm : order.Perm (ts.eraseIdx i) := by
      have h1 : (x :: order).Perm (x :: ts.eraseIdx i) := by
        have := get_cons_eraseIdx_perm ts i hi
        rw [List.get_eq_getElem, hget] at this
        exact h.trans this.symm
      exact h1.cons_inv
    obtain ⟨picks, hp⟩ := completionOrder_complete order (ts.eraseIdx i) hperm
    refine ⟨i :: picks, ?_⟩
    cases ts with
    | nil => exact absurd hi (Nat.not_lt_zero _)
    | cons t ts =>
      have hmod : i % (ts.length + 1) = i := Nat.mod_eq_of_lt hi
      simp only [completionOrder, hmod, List.get_eq_getElem, hget, hp]

/-! ## Lemmas: the batch function -/

theorem runTasks_eq (env : String) (g : GetArticleFn) :
    ∀ (ts : List Link) (m : List (String × Result)) (c : List Link),
      runTasks env g ts (m, c) =
        ((ts.reverse.map fun l => (l.ID, stored env g l)) ++ m, c ++ ts)
  | [], m, c => by simp [runTasks]
  | l :: ts, m, c => by
    simp only [runTasks, linkToFeed_calls]
    rw [runTasks_eq env g ts]
    simp [stored]

theorem lookup_map_append (env : String) (g : GetArticleFn) (id : String) :
    ∀ (ts : List Link),
      List.lookup id (ts.map fun l => (l.ID, stored env g l)) =
        (ts.find? fun l => id == l.ID).map (stored env g)
  | [] => rfl
  | l :: ts => by
    simp only [List.map_cons, List.lookup_cons, List.find?_cons]
    cases h : id == l.ID
    · simpa using lookup_map_append env g id ts
    · simp

theorem batchFn_results (env : String) (g : GetArticleFn) (picks : List Nat)
    (keys : List dataKey) :
    (batchFn env g picks keys).1 = keys.map fun key =>
      ((completionOrder picks keys).reverse.find? fun l => key.ID == l.ID).map (stored env g) := by
  simp only [batchFn, runTasks_eq, List.append_nil, lookup_map_append]

theorem batchFn_calls (env : String) (g : GetArticleFn) (picks : List Nat)
    (keys : List dataKey) :
    (batchFn env g picks keys).2 = completionOrder picks keys := by
  simp only [batchFn, runTasks_eq, List.nil_append]

theorem find_id_spec (id : String) :
    ∀ (ts : List Link), (∃ l ∈ ts, l.ID = id) →
      ∃ k' ∈ ts, k'.ID = id ∧ ts.find? (fun l => id == l.ID) = some k' := by
  intro ts ⟨l, hl, hid⟩
  cases hf : ts.find? (fun l => id == l.ID) with
  | none =>
    have := List.find?_eq_none.mp hf l hl
    simp [hid] at this
  | some k' =>
    have h1 := List.find?_some hf
    have h2 := List.mem_of_find?_eq_some hf
    exact ⟨k', h2, by simpa using (eq_of_beq h1).symm, rfl⟩

/-! ## Lemmas: the loader -/

theorem splitBatches_join {α : Type} (cap : Nat) (hcap : 0 < cap) :
    ∀ (fuel : Nat) (xs : List α), xs.length ≤ fuel → (splitBatches cap fuel xs).flatten = xs
  | 0, xs, h => by
    have : xs = [] := List.length_eq_zero.mp (Nat.le_zero.mp h)
    subst this; rfl
  | fuel + 1, [], _ => rfl
  | fuel + 1, x :: xs, h => by
    have hlen : ((x :: xs).drop cap).length ≤ fuel := by
      rw [List.length_drop]
      simp only [List.length_cons] at h ⊢
      omega
    simp only [splitBatches, List.flatten_cons, splitBatches_join cap hcap fuel _ hlen,
      List.take_append_drop]

theorem batches_join (l : Loader) (keys : List dataKey) : (l.batches keys).flatten = keys := by
  unfold Loader.batches
  by_cases hc : l.batchCap = 0
  · cases keys <;> simp [hc]
  · simp only [hc, if_false]
    exact splitBatches_join _ (Nat.pos_of_ne_zero hc) _ _ (Nat.le_refl _)

theorem requests_sublist :
    ∀ (keys : List dataKey) (seen : List String), (Loader.requests keys seen).Sublist keys
  | [], _ => List.Sublist.slnil
  | k :: ks, seen => by
    unfold Loader.requests
    split
    · exact (requests_sublist ks seen).cons k
    · exact (requests_sublist ks _).cons₂ k

theorem requests_not_seen :
    ∀ (keys : List dataKey) (seen : List String), ∀ k ∈ Loader.requests keys seen,
      k.ID ∉ seen
  | [], _, k, hk => by simp [Loader.requests] at hk
  | k0 :: ks, seen, k, hk => by
    unfold Loader.requests at hk
    split at hk
    · exact requests_not_seen ks seen k hk
    · next hnot =>
      rcases List.mem_cons.mp hk with rfl | hk'
      · exact hnot
      · exact fun h => requests_not_seen ks _ k hk' (List.mem_cons_of_mem _ h)

theorem requests_nodup :
    ∀ (keys : List dataKey) (seen : List String),
      ((Loader.requests keys seen).map fun l => l.ID).Nodup
  | [], _ => List.nodup_nil
  | k :: ks, seen => by
    unfold Loader.requests
    split
    · exact requests_nodup ks seen
    · rw [List.map_cons, List.nodup_cons]
      refine ⟨?_, requests_nodup ks _⟩
      intro hmem
      obtain ⟨k', hk', hid⟩ := List.mem_map.mp hmem
      exact requests_not_seen ks _ k' hk' (by rw [hid]; exact List.mem_cons_self _ _)

theorem requests_cover :
    ∀ (keys : List dataKey) (seen : List String), ∀ k ∈ keys, k.ID ∉ seen →
      ∃ k' ∈ Loader.requests keys seen, k'.ID = k.ID
  | [], _, k, hk, _ => by simp at hk
  | k0 :: ks, seen, k, hk, hns => by
    unfold Loader.requests
    split
    · next hin =>
      rcases List.mem_cons.mp hk with rfl | hk'
      · exact absurd hin hns
      · exact requests_cover ks seen k hk' hns
    · rcases List.mem_cons.mp hk with rfl | hk'
      · exact ⟨k, List.mem_cons_self _ _, rfl⟩
      · by_cases hid : k.ID = k0.ID
        · exact ⟨k0, List.mem_cons_self _ _, hid.symm⟩
        · have hns' : k.ID ∉ dataKey.String k0 :: seen := by
            intro h
            rcases List.mem_cons.mp h with h | h
            · exact hid h
            · exact hns h
          obtain ⟨k', hk'', hid'⟩ := requests_cover ks _ k hk' hns'
          exact ⟨k', List.mem_cons_of_mem _ hk'', hid'⟩

theorem splitBatches_sublist {α : Type} (cap : Nat) :
    ∀ (fuel : Nat) (xs : List α), ∀ b ∈ splitBatches cap fuel xs, b.Sublist xs
  | 0, _, b, hb => by simp [splitBatches] at hb
  | _ + 1, [], b, hb => by simp [splitBatches] at hb
  | fuel + 1, x :: xs, b, hb => by
    simp only [splitBatches, List.mem_cons] at hb
    rcases hb with rfl | hb
    · exact List.take_sublist _ _
    · exact (splitBatches_sublist cap fuel _ b hb).trans (List.drop_sublist _ _)

theorem batches_sublist (l : Loader) (keys : List dataKey) :
    ∀ b ∈ l.batches keys, b.Sublist keys := by
  intro b hb
  unfold Loader.batches at hb
  by_cases hc : l.batchCap = 0
  · cases keys with
    | nil => simp [hc] at hb
    | cons k ks =>
      simp [hc] at hb
      subst hb
      exact List.Sublist.refl _
  · simp only [hc, if_false] at hb
    exact splitBatches_sublist _ _ _ b hb

theorem passed_nodup (l : Loader) (keys : List dataKey) :
    ∀ b ∈ l.passed keys, (b.map fun k => k.ID).Nodup := by
  intro b hb
  exact List.Nodup.sublist ((batches_sublist l _ b hb).map _) (requests_nodup keys [])

theorem find_id_nodup {ts : List Link} (hids : (ts.map fun l => l.ID).Nodup) {k : Link}
    (hk : k ∈ ts) : ts.find? (fun l => k.ID == l.ID) = some k := by
  obtain ⟨k', hk', hid, hfind⟩ := find_id_spec k.ID ts ⟨k, hk, rfl⟩
  rw [hfind, List.inj_on_of_nodup_map hids hk' hk hid]

theorem batchFn_nodup (env : String) (g : GetArticleFn) (picks : List Nat)
    (keys : List dataKey) (hids : (keys.map fun k => k.ID).Nodup) :
    (batchFn env g picks keys).1 = keys.map fun k => some (stored env g k) := by
  rw [batchFn_results]
  apply List.map_congr_left
  intro k hk
  have hperm : (completionOrder picks keys).reverse.Perm keys :=
    (List.reverse_perm _).trans (completionOrder_perm picks keys)
  have hnd : ((completionOrder picks keys).reverse.map fun l => l.ID).Nodup :=
    (hperm.map _).nodup_iff.mpr hids
  rw [find_id_nodup hnd (hperm.mem_iff.mpr hk)]
  rfl

theorem run_nodup (env : String) (g : GetArticleFn) :
    ∀ (bs : List (List dataKey)) (scheds : List (List Nat)),
      (∀ b ∈ bs, (b.map fun k => k.ID).Nodup) →
      ((articleLoader env g).run scheds bs).1 =
        bs.flatten.map fun k => some (stored env g k)
  | [], _, _ => by simp [Loader.run]
  | b :: bs, scheds, h => by
    have ih := run_nodup env g bs scheds.tail (fun b' hb' => h b' (List.mem_cons_of_mem _ hb'))
    have hb : ((articleLoader env g).batchFn (scheds.headD []) b).1 =
        b.map fun k => some (stored env g k) :=
      batchFn_nodup env g (scheds.headD []) b (h b (List.mem_cons_self _ _))
    simp only [Loader.run, List.flatten_cons, List.map_append, hb, ih]

theorem run_calls (env : String) (g : GetArticleFn) :
    ∀ (bs : List (List dataKey)) (scheds : List (List Nat)),
      ((articleLoader env g).run scheds bs).2.Perm bs.flatten
  | [], _ => by simp [Loader.run]
  | b :: bs, scheds => by
    have ih := run_calls env g bs scheds.tail
    simp only [Loader.run, List.flatten_cons]
    have hb : ((articleLoader env g).batchFn (scheds.headD []) b).2.Perm b := by
      show (batchFn env g (scheds.headD []) b).2.Perm b
      rw [batchFn_calls]; exact completionOrder_perm _ _
    exact hb.append ih

theorem lookup_zip_map {β : Type} (f : Link → β) (id : String) :
    ∀ (ts : List Link),
      List.lookup id ((ts.map dataKey.String).zip (ts.map f)) =
        (ts.find? fun l => id == l.ID).map f
  | [] => rfl
  | l :: ts => by
    simp only [List.map_cons, List.zip_cons_cons, List.lookup_cons, List.find?_cons,
      dataKey.String]
    cases h : id == l.ID
    · simpa [dataKey.String] using lookup_zip_map f id ts
    · simp

theorem LoadAll_results (env : String) (g : GetArticleFn) (scheds : List (List Nat))
    (keys : List dataKey) :
    ((articleLoader env g).LoadAll scheds keys).1 = keys.map fun k =>
      ((Loader.requests keys []).find? fun l => k.ID == l.ID).map (stored env g) := by
  have hrun := run_nodup env g ((articleLoader env g).batches (Loader.requests keys [])) scheds
    (passed_nodup (articleLoader env g) keys)
  rw [batches_join] at hrun
  simp only [Loader.LoadAll, hrun, lookup_zip_map, dataKey.String]
  apply List.map_congr_left
  intro k _
  cases (Loader.requests keys []).find? fun l => k.ID == l.ID <;> rfl

theorem LoadAll_calls (env : String) (g : GetArticleFn) (scheds : List (List Nat))
    (keys : List dataKey) :
    ((articleLoader env g).LoadAll scheds keys).2.Perm (Loader.requests keys []) := by
  have h := run_calls env g ((articleLoader env g).batches (Loader.requests keys [])) scheds
  rw [batches_join] at h
  exact h

theorem LoadAll_at (env : String) (g : GetArticleFn)
    (keys : List dataKey) (k : dataKey) (hk : k ∈ keys) :
    ∃ k' ∈ Loader.requests keys [], k'.ID = k.ID ∧
      ((Loader.requests keys []).find? fun l => k.ID == l.ID).map (stored env g) =
        some (stored env g k') := by
  obtain ⟨k', hk', hid⟩ := requests_cover keys [] k hk (List.not_mem_nil _)
  obtain ⟨k'', hk'', hid'', hfind⟩ := find_id_spec k.ID _ ⟨k', hk', hid⟩
  exact ⟨k'', hk'', hid'', by rw [hfind]; rfl⟩

theorem LoadAll_resolves (env : String) (g : GetArticleFn) (scheds : List (List Nat))
    (keys : List dataKey) :
    List.Forall₂ (Resolves env g keys) keys
      ((articleLoader env g).LoadAll scheds keys).1 := by
  rw [LoadAll_results, List.forall₂_map_right_iff, List.forall₂_same]
  intro k hk
  obtain ⟨k', hk', hid, hres⟩ := LoadAll_at env g keys k hk
  exact ⟨k', (requests_sublist keys []).subset hk', hid, hres⟩

/-! ## Lemmas: RssHandler -/

theorem collect_resolved (env : String) (g : GetArticleFn) (keys : List dataKey) :
    ∀ (ks : List dataKey) (thunks : List (Option Result)),
      List.Forall₂ (Resolves env g keys) ks thunks →
      ∃ items, RssHandler.collect thunks = some items ∧
        List.Forall₂ (Renders env g keys) ks items
  | _, _, .nil => ⟨[], rfl, .nil⟩
  | _, _, .cons (a := k) (b := r) hr hrest => by
    obtain ⟨items, hc, hitems⟩ := collect_resolved env g keys _ _ hrest
    obtain ⟨k', hk', hid, rfl⟩ := hr
    refine ⟨(linkToFeed env g k').1 :: items, ?_, .cons ⟨k', hk', hid, rfl⟩ hitems⟩
    simp [RssHandler.collect, stored, hc]

theorem renders_ids (env : String) (g : GetArticleFn) (keys : List dataKey) :
    ∀ (ks : List dataKey) (items : List Item),
      List.Forall₂ (Renders env g keys) ks items → items.map (·.Id) = ks.map (·.ID)
  | _, _, .nil => rfl
  | _, _, .cons hr hrest => by
    obtain ⟨k', _, hid, rfl⟩ := hr
    simp only [List.map_cons, renders_ids env g keys _ _ hrest]
    rw [linkToFeed_Id, hid]

/-- The feed of a request other than `/` over a decoded listing. -/
theorem RssHandler_rss (now : Int) (env : String) (g : GetArticleFn)
    (scheds : List (List Nat)) (r : Request) (children : List Link) (hurl : r.URL ≠ "/") :
    ∃ items, RssHandler now env g scheds r (.ok children) =
        .rss { RssHandler.newFeed now r.URL with Items := items } ∧
      List.Forall₂ (Renders env g (RssHandler.keys r.Query children))
        (RssHandler.keys r.Query children) items := by
  obtain ⟨items, hc, hitems⟩ := collect_resolved env g _ _ _
    (LoadAll_resolves env g scheds (RssHandler.keys r.Query children))
  refine ⟨items, ?_, hitems⟩
  simp only [RssHandler, hurl, if_false, hc, RssHandler.newFeed, List.nil_append]

theorem loadLoop_eq_filter (scoreLimit : Bool) (limit : Int) (hasSafe safe hasFlair : Bool)
    (flair : String) :
    ∀ (children : List Link),
      RssHandler.loadLoop scoreLimit limit hasSafe safe hasFlair flair children =
        children.filter fun link =>
          !(hasSafe && safe && (link.Over18 || ToLower link.LinkFlairText == "nsfw")) &&
          !(scoreLimit && decide (limit > link.Score)) &&
          !(hasFlair && flair != "" && link.LinkFlairText != flair)
  | [] => rfl
  | link :: rest => by
    simp only [RssHandler.loadLoop, List.filter_cons, loadLoop_eq_filter _ _ _ _ _ _ rest]
    by_cases h1 : (hasSafe && safe && (link.Over18 || ToLower link.LinkFlairText == "nsfw")) = true
    · simp [h1]
    · by_cases h2 : (scoreLimit && decide (limit > link.Score)) = true
      · simp [h1, h2]
      · by_cases h3 : (hasFlair && flair != "" && link.LinkFlairText != flair) = true
        · simp [h1, h2, h3]
        · simp [h1, h2, h3]

/-! ## Lemmas: strings -/

theorem replaceFirst_of_isPrefixOf (old new : List Char) :
    ∀ (s : List Char), old.isPrefixOf s = true →
      replaceFirst old new s = new ++ s.drop old.length
  | [], h => by
    have : old = [] := by
      cases old with
      | nil => rfl
      | cons a as => simp [List.isPrefixOf] at h
    subst this
    simp [replaceFirst]
  | c :: cs, h => by simp [replaceFirst, h]

theorem HasPrefix_iff (s pre : String) : HasPrefix s pre = true ↔ ∃ rest, s = pre ++ rest := by
  unfold HasPrefix
  rw [ List.isPrefixOf_iff_prefix]
  constructor
  · rintro ⟨t, ht⟩
    exact ⟨⟨t⟩, String.ext (by simp [ht])⟩
  · rintro ⟨rest, rfl⟩
    exact ⟨rest.data, by simp⟩

theorem Replace1_of_append (pre rest new : String) :
    Replace1 (pre ++ rest) pre new = new ++ rest := by
  unfold Replace1
  apply String.ext
  have h : pre.data.isPrefixOf (pre ++ rest).data = true := by
    rw [ List.isPrefixOf_iff_prefix]; exact ⟨rest.data, by simp⟩
  rw [replaceFirst_of_isPrefixOf _ _ _ h]
  simp

theorem itemLink_eq (env : String) (g : GetArticleFn) (link : Link) :
    (linkToFeed env g link).1.Link =
      if HasPrefix link.URL "https://old.reddit.com" then
        Replace1 link.URL "https://old.reddit.com" (redditUrl env)
      else link.URL := rfl

theorem itemContent_eq (env : String) (g : GetArticleFn) (link : Link) :
    (linkToFeed env g link).1.Content =
      ((g link).1.getD "") ++
        (submittedBy (redditUrl env) link.Author ++
          (if link.BodyHTML = "" ∧ (linkToFeed env g link).1.Link ≠
              redditUrl env ++ link.Permalink then
            linkAnchor (linkToFeed env g link).1.Link else "") ++
          commentsAnchor (redditUrl env ++ link.Permalink) ++ "</p>") := by
  rw [itemLink_eq]
  unfold linkToFeed submittedBy linkAnchor commentsAnchor
  rcases hg : g link with ⟨c, e⟩
  cases c <;> simp only [String.empty_append, Option.getD] <;> split_ifs <;>
    simp only [String.append_assoc, String.append_empty, String.empty_append]

/-! ## Lemmas: the filters -/

theorem keys_eq_filter (q : Query) (children : List Link) :
    RssHandler.keys q children = children.filter fun l =>
      (q.safe.all fun s =>
        !(ToLower s == "true" && (l.Over18 || ToLower l.LinkFlairText == "nsfw"))) &&
      (q.limit.all fun s => (Atoi s).all fun v => !decide (l.Score < v)) &&
      (q.flair.all fun f => !(f != "" && l.LinkFlairText != f)) := by
  obtain ⟨limit, safe, flair⟩ := q
  unfold RssHandler.keys
  simp only [loadLoop_eq_filter]
  congr 1
  funext l
  cases limit with
  | none => cases safe <;> cases flair <;> simp [Option.all]
  | some ls =>
    cases hA : Atoi ls <;> cases safe <;> cases flair <;> simp [Option.all, hA]

/-! ## The item renderer -/

/-- C8. For every entry and every mirror base (`redditUrl env`, which is the configured
value `env` when one is set), the `Link` of the item produced by `linkToFeed` is the mirror base followed by the
remainder of the entry URL after the leading `https://old.reddit.com` when the URL starts
with it (later occurrences are part of the remainder and stay), and the entry URL
unchanged when it does not start with it. -/
theorem linkToFeed_link_rewrite (env : String) (g : GetArticleFn) (link : Link) :
    (∀ rest : String, link.URL = "https://old.reddit.com" ++ rest →
      (linkToFeed env g link).1.Link = redditUrl env ++ rest) ∧
    ((∀ rest : String, link.URL ≠ "https://old.reddit.com" ++ rest) →
      (linkToFeed env g link).1.Link = link.URL) ∧
    (env ≠ "" → redditUrl env = env) := by
  refine ⟨?_, ?_, ?_⟩
  · intro rest h
    have hp : HasPrefix link.URL "https://old.reddit.com" = true :=
      (HasPrefix_iff _ _).mpr ⟨rest, h⟩
    rw [itemLink_eq, if_pos hp, h, Replace1_of_append]
  · intro h
    have hp : ¬ HasPrefix link.URL "https://old.reddit.com" = true := by
      intro hp
      obtain ⟨rest, hr⟩ := (HasPrefix_iff _ _).mp hp
      exact h rest hr
    rw [itemLink_eq, if_neg hp]
  · intro h
    simp only [redditUrl, if_neg h]

/-- C8 at two concrete entries under the mirror base `https://m.example`: the URL
`https://old.reddit.com/r/rss/comments/s1/` is rendered as
`https://m.example/r/rss/comments/s1/`, and the URL `https://example.org/B` is kept. -/
theorem linkToFeed_link_rewrite_witness :
    selfPost.URL = "https://old.reddit.com" ++ "/r/rss/comments/s1/" ∧
    (linkToFeed "https://m.example" failsOnB selfPost).1.Link =
      "https://m.example" ++ "/r/rss/comments/s1/" ∧
    (linkToFeed "https://m.example" failsOnB (sampleEntry "B" "b" "" 1)).1.Link =
      "https://example.org/B" :=
  ⟨by decide,
    ((linkToFeed_link_rewrite "https://m.example" failsOnB selfPost).1
      "/r/rss/comments/s1/" (by decide)).trans
      (congrArg (fun base => base ++ "/r/rss/comments/s1/")
        ((linkToFeed_link_rewrite "https://m.example" failsOnB selfPost).2.2 (by decide))),
    (linkToFeed_link_rewrite "https://m.example" failsOnB (sampleEntry "B" "b" "" 1)).2.1
      (fun rest h => absurd ((HasPrefix_iff _ _).mpr ⟨rest, h⟩) (by decide))⟩

/-- C9. For every entry and every fetcher outcome, the `Content` of the item produced by
`linkToFeed` is the fetched body (empty when the fetcher returns a nil body, as it does on
error) followed by the trailer block: the "submitted by" author link, then the "[link]" anchor
to the item link exactly when `BodyHTML` is empty and the item link differs from the comments
link (mirror base followed by the permalink), then the "[comments]" anchor to the comments
link, then `</p>`. When the item link equals the comments link the trailer has no "[link]"
anchor, and with a nil body the content is the trailer alone. -/
theorem linkToFeed_content (env : String) (g : GetArticleFn) (link : Link) :
    (linkToFeed env g link).1.Content =
      ((g link).1.getD "") ++
        (submittedBy (redditUrl env) link.Author ++
          (if link.BodyHTML = "" ∧
              (linkToFeed env g link).1.Link ≠ redditUrl env ++ link.Permalink then
            linkAnchor (linkToFeed env g link).1.Link else "") ++
          commentsAnchor (redditUrl env ++ link.Permalink) ++ "</p>") ∧
    ((linkToFeed env g link).1.Link = redditUrl env ++ link.Permalink →
      (linkToFeed env g link).1.Content =
        ((g link).1.getD "") ++
          (submittedBy (redditUrl env) link.Author ++
            commentsAnchor (redditUrl env ++ link.Permalink) ++ "</p>")) ∧
    ((g link).1 = none →
      (linkToFeed env g link).1.Content =
        submittedBy (redditUrl env) link.Author ++
          (if link.BodyHTML = "" ∧
              (linkToFeed env g link).1.Link ≠ redditUrl env ++ link.Permalink then
            linkAnchor (linkToFeed env g link).1.Link else "") ++
          commentsAnchor (redditUrl env ++ link.Permalink) ++ "</p>") := by
  refine ⟨itemContent_eq env g link, ?_, ?_⟩
  · intro h
    rw [itemContent_eq, if_neg (fun hc => hc.2 h), String.append_empty]
  · intro h
    rw [itemContent_eq, h]
    simp only [Option.getD, String.empty_append]

/-- C9 at a concrete entry whose fetch fails with a nil body: the content is the trailer
alone, here with a "[link]" anchor since the entry has no body of its own and links
elsewhere. -/
theorem linkToFeed_content_witness :
    (failsOnB (sampleEntry "B" "b" "" 1)).1 = none ∧
    (linkToFeed "" failsOnB (sampleEntry "B" "b" "" 1)).1.Content =
      "<p>submitted by <a href=\"https://old.reddit.com/user/alice\">/u/alice</a><br>" ++
      "<span><a href=\"https://example.org/B\">[link]</a></span>   " ++
      "<span><a href=\"https://old.reddit.com/r/rss/comments/B/\">[comments]</a></span></p>" :=
  ⟨by decide,
    ((linkToFeed_content "" failsOnB (sampleEntry "B" "b" "" 1)).2.2 (by decide)).trans
      (by decide)⟩

/-- C10. For every mirror base and every entry whose URL is `https://old.reddit.com`
followed by its own permalink, `linkToFeed` sets the item link to the mirror base followed by
the permalink, which is the comments link, and the content is the fetched body followed by a
trailer without "[link]" anchor, whatever `BodyHTML` is. -/
theorem linkToFeed_self_post (env : String) (g : GetArticleFn) (link : Link)
    (h : link.URL = "https://old.reddit.com" ++ link.Permalink) :
    (linkToFeed env g link).1.Link = redditUrl env ++ link.Permalink ∧
    (linkToFeed env g link).1.Content =
      ((g link).1.getD "") ++
        (submittedBy (redditUrl env) link.Author ++
          commentsAnchor (redditUrl env ++ link.Permalink) ++ "</p>") := by
  have hp : HasPrefix link.URL "https://old.reddit.com" = true :=
    (HasPrefix_iff _ _).mpr ⟨link.Permalink, h⟩
  have hl : (linkToFeed env g link).1.Link = redditUrl env ++ link.Permalink := by
    rw [itemLink_eq, if_pos hp, h, Replace1_of_append]
  refine ⟨hl, ?_⟩
  rw [itemContent_eq, if_neg (fun hc => hc.2 hl), String.append_empty]

/-- C10 at the sample self post, under a configured mirror base. -/
theorem linkToFeed_self_post_witness :
    selfPost.URL = "https://old.reddit.com" ++ selfPost.Permalink ∧
    (linkToFeed "https://m.example" failsOnB selfPost).1.Link =
      "https://m.example/r/rss/comments/s1/" ∧
    (linkToFeed "https://m.example" failsOnB selfPost).1.Content =
      "<article/>" ++
      "<p>submitted by <a href=\"https://m.example/user/alice\">/u/alice</a><br>" ++
      "<span><a href=\"https://m.example/r/rss/comments/s1/\">[comments]</a></span></p>" :=
  ⟨by decide,
    (linkToFeed_self_post "https://m.example" failsOnB selfPost (by decide)).1.trans
      (by decide),
    (linkToFeed_self_post "https://m.example" failsOnB selfPost (by decide)).2.trans
      (by decide)⟩

/-! ## The batch function and the loader -/

theorem batchFn_at (env : String) (g : GetArticleFn) (picks : List Nat)
    (keys : List dataKey) (i : Nat) (hi : i < keys.length) :
    ∃ k ∈ keys, k.ID = keys[i].ID ∧
      (batchFn env g picks keys).1[i]? = some (some (stored env g k)) := by
  have hperm := completionOrder_perm picks keys
  have hmem : ∃ l ∈ (completionOrder picks keys).reverse, l.ID = keys[i].ID :=
    ⟨keys[i], by simpa using hperm.mem_iff.mpr (List.getElem_mem hi), rfl⟩
  obtain ⟨k, hk, hid, hfind⟩ := find_id_spec keys[i].ID _ hmem
  refine ⟨k, hperm.mem_iff.mp (by simpa using hk), hid, ?_⟩
  rw [batchFn_results, List.getElem?_map, List.getElem?_eq_getElem hi]
  simp only [Option.map_some', hfind]

/-- C2. The key sequences that the loader passes to the batch function of `articleLoader`
carry pairwise distinct ids, whatever keys are loaded. For every key sequence with pairwise
distinct ids and every finishing order of the per-key tasks, the result sequence has the
length of the key sequence and, for every index `i`, the i-th result is non-nil, carries no
error and holds the feed item rendered from the i-th key's entry, whose item `Id` is the
i-th key's id. For every key sequence at all, the i-th result is non-nil, carries no error
and holds an item whose `Id` is the i-th key's id. -/
theorem batchFn_results_by_key (env : String) (g : GetArticleFn) :
    (∀ (loaded : List dataKey), ∀ keys ∈ (articleLoader env g).passed loaded,
      (keys.map fun k => k.ID).Nodup) ∧
    (∀ (picks : List Nat) (keys : List dataKey), (keys.map fun k => k.ID).Nodup →
      (batchFn env g picks keys).1.length = keys.length ∧
      ∀ (i : Nat) (hi : i < keys.length),
        (batchFn env g picks keys).1[i]? =
          some (some { Data := (linkToFeed env g keys[i]).1, Error := none }) ∧
        (linkToFeed env g keys[i]).1.Id = keys[i].ID) ∧
    (∀ (picks : List Nat) (keys : List dataKey),
      (batchFn env g picks keys).1.length = keys.length ∧
      ∀ (i : Nat) (hi : i < keys.length), ∃ item,
        (batchFn env g picks keys).1[i]? = some (some { Data := item, Error := none }) ∧
        item.Id = keys[i].ID) := by
  refine ⟨fun loaded keys hkeys => passed_nodup _ loaded keys hkeys, ?_, ?_⟩
  · intro picks keys hids
    refine ⟨by rw [batchFn_results, List.length_map], ?_⟩
    intro i hi
    refine ⟨?_, linkToFeed_Id env g keys[i]⟩
    rw [batchFn_nodup env g picks keys hids, List.getElem?_map, List.getElem?_eq_getElem hi]
    rfl
  · intro picks keys
    refine ⟨by rw [batchFn_results, List.length_map], ?_⟩
    intro i hi
    obtain ⟨k, -, hid, hres⟩ := batchFn_at env g picks keys i hi
    exact ⟨(linkToFeed env g k).1, hres, by rw [linkToFeed_Id, hid]⟩

/-- C2 at the keys A, B, C with the tasks finishing in the order C, A, B: position 1 holds
the item rendered from B; and loading A, B, A passes the one batch A, B. -/
theorem batchFn_results_by_key_witness :
    (batchFn "" failsOnB [2, 0] [sampleEntry "A" "a" "" 1, sampleEntry "B" "b" "" 1,
      sampleEntry "C" "c" "" 1]).1[1]? =
      some (some { Data := (linkToFeed "" failsOnB (sampleEntry "B" "b" "" 1)).1,
                   Error := none }) ∧
    (linkToFeed "" failsOnB (sampleEntry "B" "b" "" 1)).1.Id = "B" ∧
    (articleLoader "" failsOnB).passed
      [sampleEntry "A" "a" "" 1, sampleEntry "B" "b" "" 1, sampleEntry "A" "a" "" 1] =
      [[sampleEntry "A" "a" "" 1, sampleEntry "B" "b" "" 1]] ∧
    ([sampleEntry "A" "a" "" 1, sampleEntry "B" "b" "" 1].map fun k => k.ID).Nodup :=
  ⟨(((batchFn_results_by_key "" failsOnB).2.1 [2, 0] [sampleEntry "A" "a" "" 1,
      sampleEntry "B" "b" "" 1, sampleEntry "C" "c" "" 1] (by decide)).2 1 (by decide)).1,
    (((batchFn_results_by_key "" failsOnB).2.1 [2, 0] [sampleEntry "A" "a" "" 1,
      sampleEntry "B" "b" "" 1, sampleEntry "C" "c" "" 1] (by decide)).2 1 (by decide)).2,
    by decide,
    (batchFn_results_by_key "" failsOnB).1
      [sampleEntry "A" "a" "" 1, sampleEntry "B" "b" "" 1, sampleEntry "A" "a" "" 1]
      [sampleEntry "A" "a" "" 1, sampleEntry "B" "b" "" 1] (by decide)⟩

/-- C3. For every input key sequence, with or without duplicate keys (equal ids), loaded
on the loader built by `articleLoader`: the content fetch is called on keys of the
sequence, exactly once per unique key (the ids fetched are pairwise distinct, they are the
ids of the keys, and the id of every key occurs once among them); the result sequence has
the length of the input; and positions that hold keys with equal ids hold the identical,
non-nil result. -/
theorem articleLoader_fetch_once_per_key (env : String) (g : GetArticleFn)
    (scheds : List (List Nat)) (keys : List dataKey) :
    (∀ l ∈ ((articleLoader env g).LoadAll scheds keys).2, l ∈ keys) ∧
    ((((articleLoader env g).LoadAll scheds keys).2).map fun l => l.ID).Nodup ∧
    (∀ id : String,
      id ∈ ((((articleLoader env g).LoadAll scheds keys).2).map fun l => l.ID) ↔
        id ∈ keys.map fun k => k.ID) ∧
    (∀ k ∈ keys,
      ((((articleLoader env g).LoadAll scheds keys).2).map fun l => l.ID).count k.ID = 1) ∧
    ((articleLoader env g).LoadAll scheds keys).1.length = keys.length ∧
    (∀ (i j : Nat) (hi : i < keys.length) (hj : j < keys.length),
      keys[i].ID = keys[j].ID →
        ((articleLoader env g).LoadAll scheds keys).1[i]? =
          ((articleLoader env g).LoadAll scheds keys).1[j]? ∧
        ∃ res, ((articleLoader env g).LoadAll scheds keys).1[i]? = some (some res)) := by
  have hperm := LoadAll_calls env g scheds keys
  have hsub := requests_sublist keys []
  have hnd : ((((articleLoader env g).LoadAll scheds keys).2).map fun l => l.ID).Nodup :=
    (hperm.map _).nodup_iff.mpr (requests_nodup keys [])
  have hmem : ∀ id : String,
      id ∈ ((((articleLoader env g).LoadAll scheds keys).2).map fun l => l.ID) ↔
        id ∈ keys.map fun k => k.ID := by
    intro id
    rw [(hperm.map _).mem_iff]
    constructor
    · exact fun h => (hsub.map _).subset h
    · intro h
      obtain ⟨k, hk, rfl⟩ := List.mem_map.mp h
      obtain ⟨k', hk', hid⟩ := requests_cover keys [] k hk (List.not_mem_nil _)
      exact List.mem_map.mpr ⟨k', hk', hid⟩
  refine ⟨fun l hl => hsub.subset (hperm.mem_iff.mp hl), hnd, hmem, ?_, ?_, ?_⟩
  · intro k hk
    exact List.count_eq_one_of_mem hnd ((hmem k.ID).mpr (List.mem_map.mpr ⟨k, hk, rfl⟩))
  · rw [LoadAll_results, List.length_map]
  · intro i j hi hj hid
    obtain ⟨k', -, -, hres⟩ := LoadAll_at env g keys keys[i] (List.getElem_mem hi)
    rw [LoadAll_results, List.getElem?_map, List.getElem?_map, List.getElem?_eq_getElem hi,
      List.getElem?_eq_getElem hj]
    simp only [Option.map_some']
    refine ⟨by rw [hid], stored env g k', by rw [hres]⟩

/-- C3 at the key sequence A, B, A, whose two keys with id A carry different titles: the
fetch is called on the first A and on B only, and positions 0 and 2 hold the identical
result, the item rendered from the first A. -/
theorem articleLoader_fetch_once_per_key_witness :
    ((articleLoader "" failsOnB).LoadAll [[1]] [sampleEntry "A" "x" "" 1,
        sampleEntry "B" "b" "" 1, sampleEntry "A" "y" "" 1]).1[0]? =
      ((articleLoader "" failsOnB).LoadAll [[1]] [sampleEntry "A" "x" "" 1,
        sampleEntry "B" "b" "" 1, sampleEntry "A" "y" "" 1]).1[2]? ∧
    ((((articleLoader "" failsOnB).LoadAll [[1]] [sampleEntry "A" "x" "" 1,
        sampleEntry "B" "b" "" 1, sampleEntry "A" "y" "" 1]).2).map fun l => l.ID).count
      "A" = 1 ∧
    ((articleLoader "" failsOnB).LoadAll [[1]] [sampleEntry "A" "x" "" 1,
        sampleEntry "B" "b" "" 1, sampleEntry "A" "y" "" 1]).2 =
      [sampleEntry "B" "b" "" 1, sampleEntry "A" "x" "" 1] ∧
    ((articleLoader "" failsOnB).LoadAll [[1]] [sampleEntry "A" "x" "" 1,
        sampleEntry "B" "b" "" 1, sampleEntry "A" "y" "" 1]).1 =
      [some { Data := (linkToFeed "" failsOnB (sampleEntry "A" "x" "" 1)).1, Error := none },
       some { Data := (linkToFeed "" failsOnB (sampleEntry "B" "b" "" 1)).1, Error := none },
       some { Data := (linkToFeed "" failsOnB (sampleEntry "A" "x" "" 1)).1,
              Error := none }] :=
  ⟨((articleLoader_fetch_once_per_key "" failsOnB [[1]] [sampleEntry "A" "x" "" 1,
      sampleEntry "B" "b" "" 1, sampleEntry "A" "y" "" 1]).2.2.2.2.2 0 2 (by decide)
      (by decide) (by decide)).1,
    (articleLoader_fetch_once_per_key "" failsOnB [[1]] [sampleEntry "A" "x" "" 1,
      sampleEntry "B" "b" "" 1, sampleEntry "A" "y" "" 1]).2.2.2.1
      (sampleEntry "A" "x" "" 1) (by decide),
    by decide, by decide⟩

/-! ## The feed handler -/

/-- C1, refuted as stated: for the listing A, B, C with no filter parameter and a fetcher
that fails on B (error, no body) and succeeds on A and C, the feed built by `RssHandler`
has the items A, B, C, so B is not omitted. -/
theorem RssHandler_failed_fetch_counterexample :
    (failsOnB (sampleEntry "B" "b" "" 1)).2 ≠ none ∧
    (failsOnB (sampleEntry "A" "a" "" 1)).2 = none ∧
    (failsOnB (sampleEntry "C" "c" "" 1)).2 = none ∧
    RssHandler.keys { limit := none, safe := none, flair := none }
        [sampleEntry "A" "a" "" 1, sampleEntry "B" "b" "" 1, sampleEntry "C" "c" "" 1] =
      [sampleEntry "A" "a" "" 1, sampleEntry "B" "b" "" 1, sampleEntry "C" "c" "" 1] ∧
    (RssHandler 0 "" failsOnB []
        { URL := "/r/rss.json", Query := { limit := none, safe := none, flair := none } }
        (.ok [sampleEntry "A" "a" "" 1, sampleEntry "B" "b" "" 1,
          sampleEntry "C" "c" "" 1])).itemIds = some ["A", "B", "C"] ∧
    (RssHandler 0 "" failsOnB []
        { URL := "/r/rss.json", Query := { limit := none, safe := none, flair := none } }
        (.ok [sampleEntry "A" "a" "" 1, sampleEntry "B" "b" "" 1,
          sampleEntry "C" "c" "" 1])).itemIds ≠ some ["A", "C"] := by
  decide

/-- C1, amended: for every listing whose entries all pass filtering and every content
fetcher, whatever it returns for each entry, `RssHandler` builds a feed with one item per
listing entry, in listing order: the item ids of the feed are exactly the ids of all the
entries, an entry whose fetch failed included, and every item is the one `linkToFeed`
renders from a listing entry with that id. -/
theorem RssHandler_items_all_entries (now : Int) (env : String) (g : GetArticleFn)
    (scheds : List (List Nat)) (r : Request) (children : List Link)
    (hurl : r.URL ≠ "/") (hpass : RssHandler.keys r.Query children = children) :
    ∃ feed, RssHandler now env g scheds r (.ok children) = .rss feed ∧
      (feed.Items.map fun it => it.Id) = children.map (fun l => l.ID) ∧
      List.Forall₂ (Renders env g children) children feed.Items := by
  obtain ⟨items, hres, hitems⟩ := RssHandler_rss now env g scheds r children hurl
  rw [hpass] at hitems
  exact ⟨_, hres, renders_ids env g children children items hitems, hitems⟩

/-- C1, amended, at the listing A, B, C with the fetch of B failing. -/
theorem RssHandler_items_all_entries_witness :
    ∃ feed, RssHandler 0 "" failsOnB []
        { URL := "/r/rss.json", Query := { limit := none, safe := none, flair := none } }
        (.ok [sampleEntry "A" "a" "" 1, sampleEntry "B" "b" "" 1,
          sampleEntry "C" "c" "" 1]) = .rss feed ∧
      (feed.Items.map fun it => it.Id) =
        [sampleEntry "A" "a" "" 1, sampleEntry "B" "b" "" 1,
          sampleEntry "C" "c" "" 1].map (fun l => l.ID) ∧
      List.Forall₂ (Renders "" failsOnB
          [sampleEntry "A" "a" "" 1, sampleEntry "B" "b" "" 1, sampleEntry "C" "c" "" 1])
        [sampleEntry "A" "a" "" 1, sampleEntry "B" "b" "" 1, sampleEntry "C" "c" "" 1]
        feed.Items :=
  RssHandler_items_all_entries 0 "" failsOnB []
    { URL := "/r/rss.json", Query := { limit := none, safe := none, flair := none } }
    [sampleEntry "A" "a" "" 1, sampleEntry "B" "b" "" 1, sampleEntry "C" "c" "" 1]
    (by decide) (by decide)

/-- C4. For every listing, every combination of filter parameters, every content fetcher
and every finishing order of the fetches, `RssHandler` builds a feed whose item ids are the
ids of the entries that passed the filters, in listing order; these entries are a
subsequence of the listing, so the item ids are a subsequence of the listing's ids. -/
theorem RssHandler_items_subsequence (now : Int) (env : String) (g : GetArticleFn)
    (scheds : List (List Nat)) (r : Request) (children : List Link) (hurl : r.URL ≠ "/") :
    ∃ feed, RssHandler now env g scheds r (.ok children) = .rss feed ∧
      (feed.Items.map fun it => it.Id).Sublist (children.map fun l => l.ID) ∧
      (feed.Items.map fun it => it.Id) =
        (RssHandler.keys r.Query children).map (fun l => l.ID) ∧
      (RssHandler.keys r.Query children).Sublist children := by
  obtain ⟨items, hres, hitems⟩ := RssHandler_rss now env g scheds r children hurl
  have hids := renders_ids env g _ _ items hitems
  have hsub : (RssHandler.keys r.Query children).Sublist children := by
    rw [keys_eq_filter]; exact List.filter_sublist _
  refine ⟨_, hres, ?_, hids, hsub⟩
  show (items.map fun it => it.Id).Sublist _
  rw [hids]
  exact hsub.map _

/-- C4 at a listing A, B, C filtered by flair `x`, which only A and C carry. -/
theorem RssHandler_items_subsequence_witness :
    ∃ feed, RssHandler 0 "" failsOnB [[1, 0]]
        { URL := "/r/rss.json?flair=x",
          Query := { limit := none, safe := none, flair := some "x" } }
        (.ok [sampleEntry "A" "a" "x" 1, sampleEntry "B" "b" "y" 1,
          sampleEntry "C" "c" "x" 1]) = .rss feed ∧
      (feed.Items.map fun it => it.Id).Sublist
        ([sampleEntry "A" "a" "x" 1, sampleEntry "B" "b" "y" 1,
          sampleEntry "C" "c" "x" 1].map fun l => l.ID) ∧
      (feed.Items.map fun it => it.Id) =
        (RssHandler.keys { limit := none, safe := none, flair := some "x" }
          [sampleEntry "A" "a" "x" 1, sampleEntry "B" "b" "y" 1,
            sampleEntry "C" "c" "x" 1]).map (fun l => l.ID) ∧
      (RssHandler.keys { limit := none, safe := none, flair := some "x" }
          [sampleEntry "A" "a" "x" 1, sampleEntry "B" "b" "y" 1,
            sampleEntry "C" "c" "x" 1]).Sublist
        [sampleEntry "A" "a" "x" 1, sampleEntry "B" "b" "y" 1, sampleEntry "C" "c" "x" 1] :=
  RssHandler_items_subsequence 0 "" failsOnB [[1, 0]]
    { URL := "/r/rss.json?flair=x",
      Query := { limit := none, safe := none, flair := some "x" } }
    [sampleEntry "A" "a" "x" 1, sampleEntry "B" "b" "y" 1, sampleEntry "C" "c" "x" 1]
    (by decide)

/-- C5. When `safe` is present with a value that lower-cases to `true` and neither `limit`
nor `flair` is given, the feed built by `RssHandler` has exactly the entries of the listing
that are neither `Over18` nor flaired, up to case, `nsfw`, in listing order: an entry is
dropped if and only if its `Over18` flag is set or its lower-cased `LinkFlairText` is
`nsfw`. -/
theorem RssHandler_safe_filter (now : Int) (env : String) (g : GetArticleFn)
    (scheds : List (List Nat)) (url s : String) (children : List Link)
    (hurl : url ≠ "/") (hs : ToLower s = "true") :
    ∃ feed, RssHandler now env g scheds
        { URL := url, Query := { limit := none, safe := some s, flair := none } }
        (.ok children) = .rss feed ∧
      (feed.Items.map fun it => it.Id) =
        (children.filter fun l =>
          !(l.Over18 || ToLower l.LinkFlairText == "nsfw")).map (fun l => l.ID) ∧
      ∀ l ∈ children,
        (l ∉ RssHandler.keys { limit := none, safe := some s, flair := none } children ↔
          (l.Over18 = true ∨ ToLower l.LinkFlairText = "nsfw")) := by
  have hk : RssHandler.keys { limit := none, safe := some s, flair := none } children =
      children.filter fun l => !(l.Over18 || ToLower l.LinkFlairText == "nsfw") := by
    rw [keys_eq_filter]
    congr 1
    funext l
    simp [Option.all, hs]
  obtain ⟨items, hres, hitems⟩ := RssHandler_rss now env g scheds
    { URL := url, Query := { limit := none, safe := some s, flair := none } } children hurl
  refine ⟨_, hres, ?_, ?_⟩
  · show (items.map fun it => it.Id) = _
    rw [renders_ids env g _ _ items hitems, hk]
  · intro l hl
    rw [hk, List.mem_filter]
    rcases Bool.eq_false_or_eq_true l.Over18 with h | h <;> simp [hl, h]

/-- C5 at a listing with a plain entry, an `Over18` entry and an entry flaired `NSFW`,
under `safe=True`. -/
theorem RssHandler_safe_filter_witness :
    ∃ feed, RssHandler 0 "" failsOnB []
        { URL := "/r/rss.json?safe=True",
          Query := { limit := none, safe := some "True", flair := none } }
        (.ok [sampleEntry "A" "a" "" 1, { sampleEntry "B" "b" "" 1 with Over18 := true },
          sampleEntry "C" "c" "NSFW" 1]) = .rss feed ∧
      (feed.Items.map fun it => it.Id) =
        ([sampleEntry "A" "a" "" 1, { sampleEntry "B" "b" "" 1 with Over18 := true },
          sampleEntry "C" "c" "NSFW" 1].filter fun l =>
          !(l.Over18 || ToLower l.LinkFlairText == "nsfw")).map (fun l => l.ID) ∧
      ∀ l ∈ [sampleEntry "A" "a" "" 1, { sampleEntry "B" "b" "" 1 with Over18 := true },
          sampleEntry "C" "c" "NSFW" 1],
        (l ∉ RssHandler.keys { limit := none, safe := some "True", flair := none }
            [sampleEntry "A" "a" "" 1, { sampleEntry "B" "b" "" 1 with Over18 := true },
              sampleEntry "C" "c" "NSFW" 1] ↔
          (l.Over18 = true ∨ ToLower l.LinkFlairText = "nsfw")) :=
  RssHandler_safe_filter 0 "" failsOnB [] "/r/rss.json?safe=True" "True"
    [sampleEntry "A" "a" "" 1, { sampleEntry "B" "b" "" 1 with Over18 := true },
      sampleEntry "C" "c" "NSFW" 1]
    (by decide) (by decide)

/-- C6. When `limit` is present and parses as the integer `V`, and neither `safe` nor
`flair` is given, the feed built by `RssHandler` has exactly the entries of the listing
whose `Score` is not below `V`, in listing order: an entry is dropped if and only if its
`Score` is strictly less than `V`, and every entry with `Score = V` is kept. -/
theorem RssHandler_score_floor (now : Int) (env : String) (g : GetArticleFn)
    (scheds : List (List Nat)) (url s : String) (V : Int) (children : List Link)
    (hurl : url ≠ "/") (hs : Atoi s = some V) :
    ∃ feed, RssHandler now env g scheds
        { URL := url, Query := { limit := some s, safe := none, flair := none } }
        (.ok children) = .rss feed ∧
      (feed.Items.map fun it => it.Id) =
        (children.filter fun l => !decide (l.Score < V)).map (fun l => l.ID) ∧
      (∀ l ∈ children,
        (l ∉ RssHandler.keys { limit := some s, safe := none, flair := none } children ↔
          l.Score < V)) ∧
      (∀ l ∈ children, l.Score = V →
        l ∈ RssHandler.keys { limit := some s, safe := none, flair := none } children) := by
  have hk : RssHandler.keys { limit := some s, safe := none, flair := none } children =
      children.filter fun l => !decide (l.Score < V) := by
    rw [keys_eq_filter]
    congr 1
    funext l
    simp [Option.all, hs]
  obtain ⟨items, hres, hitems⟩ := RssHandler_rss now env g scheds
    { URL := url, Query := { limit := some s, safe := none, flair := none } } children hurl
  refine ⟨_, hres, ?_, ?_, ?_⟩
  · show (items.map fun it => it.Id) = _
    rw [renders_ids env g _ _ items hitems, hk]
  · intro l hl
    rw [hk, List.mem_filter]
    simp [hl]
  · intro l hl hV
    rw [hk, List.mem_filter]
    simp [hl, hV]

/-- C6 at a listing with scores 9, 10 and 11 under `limit=10`. -/
theorem RssHandler_score_floor_witness :
    ∃ feed, RssHandler 0 "" failsOnB []
        { URL := "/r/rss.json?limit=10",
          Query := { limit := some "10", safe := none, flair := none } }
        (.ok [sampleEntry "A" "a" "" 9, sampleEntry "B" "b" "" 10,
          sampleEntry "C" "c" "" 11]) = .rss feed ∧
      (feed.Items.map fun it => it.Id) =
        ([sampleEntry "A" "a" "" 9, sampleEntry "B" "b" "" 10,
          sampleEntry "C" "c" "" 11].filter fun l =>
            !decide (l.Score < 10)).map (fun l => l.ID) ∧
      (∀ l ∈ [sampleEntry "A" "a" "" 9, sampleEntry "B" "b" "" 10,
          sampleEntry "C" "c" "" 11],
        (l ∉ RssHandler.keys { limit := some "10", safe := none, flair := none }
            [sampleEntry "A" "a" "" 9, sampleEntry "B" "b" "" 10,
              sampleEntry "C" "c" "" 11] ↔
          l.Score < 10)) ∧
      (∀ l ∈ [sampleEntry "A" "a" "" 9, sampleEntry "B" "b" "" 10,
          sampleEntry "C" "c" "" 11], l.Score = 10 →
        l ∈ RssHandler.keys { limit := some "10", safe := none, flair := none }
          [sampleEntry "A" "a" "" 9, sampleEntry "B" "b" "" 10,
            sampleEntry "C" "c" "" 11]) :=
  RssHandler_score_floor 0 "" failsOnB [] "/r/rss.json?limit=10" "10" 10
    [sampleEntry "A" "a" "" 9, sampleEntry "B" "b" "" 10, sampleEntry "C" "c" "" 11]
    (by decide) (by decide)

/-- C7. The three filter predicates of `RssHandler` are independently optional: the keys
passed to the loader are the listing entries that pass three tests, each of which reads one
parameter only and passes every entry when its parameter is absent (`Option.all` is true on
`none`). An entry that passes the other two tests is dropped if and only if `flair` is
present with a non-empty value `f` and the entry's `LinkFlairText` differs from `f`; and
when none of `safe`, `limit`, `flair` is present every listing entry is passed to the
loader. -/
theorem RssHandler_filters_optional (q : Query) (children : List Link) :
    (RssHandler.keys q children = children.filter fun l =>
      (q.safe.all fun s =>
        !(ToLower s == "true" && (l.Over18 || ToLower l.LinkFlairText == "nsfw"))) &&
      (q.limit.all fun s => (Atoi s).all fun v => !decide (l.Score < v)) &&
      (q.flair.all fun f => !(f != "" && l.LinkFlairText != f))) ∧
    (∀ l ∈ RssHandler.keys { q with flair := none } children,
      (l ∉ RssHandler.keys q children ↔
        ∃ f, q.flair = some f ∧ f ≠ "" ∧ l.LinkFlairText ≠ f)) ∧
    RssHandler.keys { limit := none, safe := none, flair := none } children = children := by
  refine ⟨keys_eq_filter q children, ?_, ?_⟩
  · obtain ⟨limit, safe, flair⟩ := q
    intro l hl
    rw [keys_eq_filter, List.mem_filter] at hl ⊢
    simp only [Bool.and_eq_true] at hl ⊢
    obtain ⟨hmem, ⟨h1, h2⟩, -⟩ := hl
    simp only [hmem, h1, h2, true_and]
    cases flair with
    | none => simp [Option.all]
    | some f => simp [Option.all]
  · rw [keys_eq_filter]
    simp [Option.all]

end RedditRss
